import Mathlib

/-!
Verification development for the rank-assignment and restart-reconciliation
subsystem of the `invoker` repository.  The Go source files
(`internal/run.go`, `internal/state_manager.go`, `internal/ism.go`,
`internal/docker_misc.go` and the CLI helpers) are embedded shallowly:

* Go maps are embedded as association lists with upsert semantics (the
  content of a Go map is order-insensitive; where the source picks "the
  first value" of a map we pick the head of the association list, and we
  note at each such point why the property proved does not depend on the
  choice).
* Fallible Go functions returning `(T, error)` are embedded as functions
  into `GoResult T`; a Go runtime panic (nil-map assignment, index out of
  range) is embedded as `GoResult.panicked`.
* The on-disk state directory is embedded as an association list from full
  file paths to file bodies.  A body is always the `json.Marshal` image of
  a `RunArgs` value; since `json.Marshal` is deterministic and injective
  on this struct type, bodies are represented by the `RunArgs` value
  itself, and byte equality of bodies coincides with equality of the
  represented values.
-/

set_option maxRecDepth 8000

namespace Invoker

/-- Go: `type State string` with constants `Running = "running"`,
`Stoppable = "stoppable"` (ism.go). -/
abbrev State := String

/-- Go constant `Running State = "running"`. -/
def Running : State := "running"

/-- Go constant `Stoppable State = "stoppable"`. -/
def Stoppable : State := "stoppable"

/-- Go `isValidState` (ism.go): the switch accepts exactly `"running"`
and `"stoppable"`. -/
def isValidState (state : String) : Bool :=
  state == "running" || state == "stoppable"

/-- Split accumulator loop over the character list; `acc` holds the
current token reversed. -/
def splitOnCharAux (sep : Char) : List Char → List Char → List (List Char)
  | [], acc => [acc.reverse]
  | c :: cs, acc =>
    if c = sep then acc.reverse :: splitOnCharAux sep cs []
    else splitOnCharAux sep cs (c :: acc)

/-- Go `strings.Split(s, sep)` for the single-character separators this
program uses (`"="` and `"."`): split at every occurrence, keeping empty
tokens, always returning at least one token. -/
def splitChar (s : String) (sep : Char) : List String :=
  (splitOnCharAux sep s.toList []).map String.mk

/-- Character-list prefix test. -/
def startsWithChars : List Char → List Char → Bool
  | _, [] => true
  | [], _ :: _ => false
  | c :: cs, p :: ps => c = p && startsWithChars cs ps

/-- Go `strings.HasPrefix` (the inputs here are ASCII, so the byte-wise
Go test coincides with this character-wise one). -/
def hasPrefixGo (s pre : String) : Bool := startsWithChars s.toList pre.toList

/-- Whether a string ends with the given character. -/
def endsWithChar (s : String) (c : Char) : Bool :=
  match s.toList.getLast? with
  | none => false
  | some l => l = c

/-- Go `type Host string` (state_manager.go). -/
abbrev Host := String

/-- Go `type ProjectExperimentStr string` (state_manager.go). -/
abbrev ProjectExperimentStr := String

/-- Go struct `RunArgs` (run.go).  Pointer-to-string optional fields are
embedded as `Option String`; `nil` slices and empty slices are identified
(the difference is unobservable by any operation of this program). -/
structure RunArgs where
  ProjectName    : String
  Hosts          : List String
  NProcPerNode   : Int
  ExperimentName : String
  Port           : Int
  RunName        : String
  MaxRepeats     : Int
  Rest           : List String
  ContainerName  : Option String
  MasterHost     : Option String
  NoPython       : Option String
deriving DecidableEq, Repr

/-- One encoded gob field value.  `RunArgs` only contains strings, ints,
string slices and pointers to strings, so three value shapes suffice. -/
inductive GobVal where
  | s (v : String)
  | i (v : Int)
  | l (v : List String)
deriving DecidableEq, Repr

/-- Gob emission of a string field: omitted when it is the zero value `""`. -/
def gobStr (v : String) : Option GobVal :=
  if v = "" then none else some (GobVal.s v)

/-- Gob emission of an int field: omitted when it is the zero value `0`. -/
def gobInt (v : Int) : Option GobVal :=
  if v = 0 then none else some (GobVal.i v)

/-- Gob emission of a string-slice field: omitted when its length is `0`. -/
def gobList (v : List String) : Option GobVal :=
  if v = [] then none else some (GobVal.l v)

/-- Gob emission of a `*string` field: the pointer is indirected first
(`encIndirect`); a nil pointer is skipped, and the dereferenced string is
then emitted under the usual zero-value rule, so a pointer to `""` is
also omitted. -/
def gobPtrStr (v : Option String) : Option GobVal :=
  match v with
  | none => none
  | some sv => gobStr sv

/-- The per-field emission decisions for one `RunArgs` value, in struct
declaration order (the order gob assigns field numbers). -/
def gobFieldOpts (r : RunArgs) : List (Option GobVal) :=
  [gobStr r.ProjectName, gobList r.Hosts, gobInt r.NProcPerNode,
   gobStr r.ExperimentName, gobInt r.Port, gobStr r.RunName,
   gobInt r.MaxRepeats, gobList r.Rest, gobPtrStr r.ContainerName,
   gobPtrStr r.MasterHost, gobPtrStr r.NoPython]

/-- The gob field stream: emitted fields tagged with their field number
(gob writes the delta between consecutive field numbers, which determines
and is determined by the absolute numbers). -/
def gobEmit (k : Nat) : List (Option GobVal) → List (Nat × GobVal)
  | [] => []
  | none :: t => gobEmit (k + 1) t
  | some v :: t => (k, v) :: gobEmit (k + 1) t

/-- The gob encoding of a `RunArgs` value, at the granularity of emitted
fields.  Byte equality of two `gob.Encode` outputs for values of this one
struct type coincides with equality of these streams: the type descriptor
prefix is identical, field deltas determine the field numbers, and the
per-value wire encoding is injective for each field type. -/
def gobFields (r : RunArgs) : List (Nat × GobVal) :=
  gobEmit 0 (gobFieldOpts r)

/-- Go method `RunArgs.Equal` (run.go): encodes both receiver and argument
with `encoding/gob` and compares the resulting byte slices. -/
def RunArgs.Equal (r a : RunArgs) : Bool :=
  decide (gobFields r = gobFields a)

/-- Go method `RunArgs.Restartable` (run.go), inner loop.  For each token
of `Rest`, if it has the prefix `"hf_action_restartable"` the token is
split on `"="` and index `[1]` is read; when the token contains no `"="`
that index access panics (`none` here).  If the read value is `"running"`
the loop returns `Running`, otherwise it continues; falling through
returns `Stoppable`. -/
def restartableLoop : List String → Option State
  | [] => some Stoppable
  | arg :: rest =>
    if hasPrefixGo arg "hf_action_restartable" then
      match (splitChar arg '=').get? 1 with
      | none => none
      | some st => if st = "running" then some Running else restartableLoop rest
    else restartableLoop rest

/-- Go method `RunArgs.Restartable` (run.go): early `Stoppable` return on
an empty `Rest`, then the scanning loop. -/
def RunArgs.Restartable (r : RunArgs) : Option State :=
  if r.Rest.isEmpty then some Stoppable else restartableLoop r.Rest

/-- Go struct `StateMatch` (state_manager.go). -/
structure StateMatch where
  Expected : State
  Actual   : Int
  RunArgs  : RunArgs
deriving DecidableEq, Repr

/-- Go `badExitCodes = mapset.NewSet[int](1, 255)` (state_manager.go);
membership in the set is list membership. -/
def badExitCodes : List Int := [1, 255]

/-- Go `okExitCodes = mapset.NewSet[int](0, 137)` (state_manager.go). -/
def okExitCodes : List Int := [0, 137]

/-- Go method `StateMatch.ShouldRestart` (state_manager.go). -/
def StateMatch.ShouldRestart (s : StateMatch) : Bool :=
  s.Expected == Running &&
    (badExitCodes.contains s.Actual || !okExitCodes.contains s.Actual)

/-- Association-list upsert: the content semantics of a Go map write
`m[k] = v` (insert or overwrite; key order of the underlying map is
immaterial, here first-insertion order is kept). -/
def upsert {α : Type} [DecidableEq α] {β : Type} :
    List (α × β) → α → β → List (α × β)
  | [], k, v => [(k, v)]
  | (k', v') :: t, k, v =>
    if k' = k then (k, v) :: t else (k', v') :: upsert t k v

/-- Association-list lookup: the content semantics of a Go map read. -/
def alook {α : Type} [DecidableEq α] {β : Type} :
    List (α × β) → α → Option β
  | [], _ => none
  | (k', v') :: t, k => if k' = k then some v' else alook t k

/-- The keys of an association list. -/
def akeys {α β : Type} (l : List (α × β)) : List α := l.map Prod.fst

/-- Go `type ExperimentState map[ProjectExperimentStr]StateMatch`. -/
abbrev ExperimentState := List (ProjectExperimentStr × StateMatch)

/-- Go `type RetStatePage map[Host]ExperimentState`. -/
abbrev RetStatePage := List (Host × ExperimentState)

/-- Go `type ExperimentHostPageToRestart map[ProjectExperimentStr]RunArgs`. -/
abbrev ExperimentHostPageToRestart := List (ProjectExperimentStr × RunArgs)

/-- One `s.page[host][experiment] = stateMatch` write
(state_manager.go, JoinLocalMatches merge loop). -/
def pageSet (p : RetStatePage) (h : Host) (e : ProjectExperimentStr)
    (sm : StateMatch) : RetStatePage :=
  upsert p h (upsert ((alook p h).getD []) e sm)

/-- The page-merging loop of `JoinLocalMatches` (state_manager.go lines
114-127): every decoded peer page is folded into the accumulated page;
a missing host row is created empty first, and on a duplicate
`(Host, JobKey)` cell the later page wins. -/
def joinPages (init : RetStatePage) (pages : List RetStatePage) : RetStatePage :=
  pages.foldl
    (fun cur page =>
      page.foldl
        (fun acc hes =>
          let acc1 := if (alook acc hes.1).isSome then acc else upsert acc hes.1 []
          hes.2.foldl (fun a esm => pageSet a hes.1 esm.1 esm.2) acc1)
        cur)
    init

/-- The grouping loop of `JoinLocalMatches` (state_manager.go lines
130-139): `grouped[experiment][host] = match`. -/
def groupByExperiment (p : RetStatePage) :
    List (ProjectExperimentStr × List (Host × StateMatch)) :=
  p.foldl
    (fun g hes =>
      hes.2.foldl
        (fun g2 esm => upsert g2 esm.1 (upsert ((alook g2 esm.1).getD []) hes.1 esm.2))
        g)
    []

/-- The inner host loop of `JoinLocalMatches` (state_manager.go lines
158-165): against the reference `RunArgs` of the group, every host's
`RunArgs` must be gob-equal, otherwise the call returns the error
`"run args are not equal"`; hosts whose `StateMatch.ShouldRestart` holds
are collected in order. -/
def checkGroup (ref : RunArgs) : List (Host × StateMatch) → Except String (List Host)
  | [] => Except.ok []
  | (h, sm) :: t =>
    if ref.Equal sm.RunArgs then
      match checkGroup ref t with
      | Except.error e => Except.error e
      | Except.ok fh => Except.ok (if sm.ShouldRestart then h :: fh else fh)
    else Except.error "run args are not equal"

/-- The per-experiment decision loop of `JoinLocalMatches`
(state_manager.go lines 145-173).  A group with zero observing hosts is
skipped; otherwise the first value of the group is taken as the
reference (`FirstValue`, embedded as the list head — for groups that
pass the equality check all members are gob-equal, so the choice does
not matter, and for failing groups the error does not depend on it),
and when the collected failed-host list is non-empty the experiment is
recorded in `toRestart` with the reference `RunArgs`. -/
def joinDecide :
    List (ProjectExperimentStr × List (Host × StateMatch)) →
    Except String ExperimentHostPageToRestart
  | [] => Except.ok []
  | (_, []) :: t => joinDecide t
  | (e, (h0, sm0) :: hs') :: t =>
    match checkGroup sm0.RunArgs ((h0, sm0) :: hs') with
    | Except.error msg => Except.error msg
    | Except.ok failed =>
      match joinDecide t with
      | Except.error msg => Except.error msg
      | Except.ok rest =>
        Except.ok (if failed.isEmpty then rest else (e, sm0.RunArgs) :: rest)

/-- Go method `StateManager.JoinLocalMatches` (state_manager.go): decode
and merge the peer pages into the local page, group by experiment, then
decide.  JSON transport is external; peer pages arrive here already
decoded.  The Go method mutates `s.toRestart` and returns `error`; its
observable outcome — either an error, or the final content of
`s.toRestart` — is returned as an `Except` value. -/
def JoinLocalMatches (localPage : RetStatePage) (pages : List RetStatePage) :
    Except String ExperimentHostPageToRestart :=
  joinDecide (groupByExperiment (joinPages localPage pages))

/-- Decidable equality for `Except`, so that concrete runs of the
merge-and-decide operation can be settled by `decide`. -/
instance instDecEqExcept {ε α : Type} [DecidableEq ε] [DecidableEq α] :
    DecidableEq (Except ε α) :=
  fun a b =>
    match a, b with
    | Except.ok x, Except.ok y =>
      if h : x = y then isTrue (by rw [h])
      else isFalse (fun hc => h (Except.ok.inj hc))
    | Except.error x, Except.error y =>
      if h : x = y then isTrue (by rw [h])
      else isFalse (fun hc => h (Except.error.inj hc))
    | Except.ok _, Except.error _ => isFalse (fun hc => Except.noConfusion hc)
    | Except.error _, Except.ok _ => isFalse (fun hc => Except.noConfusion hc)

/-- Outcome of a Go call that may return an error or crash with a
runtime panic (nil-map assignment, index out of range). -/
inductive GoResult (α : Type) where
  | ok (val : α)
  | err (msg : String)
  | panicked
deriving DecidableEq, Repr

/-- Outcome of a Go call that may terminate the process via `os.Exit`
or a runtime panic instead of returning. -/
inductive ExitOr (α : Type) where
  | cont (val : α)
  | exit (code : Nat)
  | panicked
deriving DecidableEq, Repr

/-- Go error constant `ErrOmitHost = errors.New("ip not found in hosts
list")` (CLI helpers). -/
def errOmitHostMsg : String := "ip not found in hosts list"

/-- Go `masterAndRank` (CLI helpers).  The node's observable addresses
`ips` (public IP followed by the non-loopback local IPv4 addresses) are
inputs here; failures of the address lookups are outside the model.
`hosts[0]` on an empty list is an index-out-of-range panic.  The rank
scan takes the first index whose host is contained in `ips`; the
single-entry `"localhost"` placeholder returns `(master, 1)` before the
`rank == -1` test. -/
def masterAndRank (ips hosts : List String) : GoResult (String × Int) :=
  match hosts with
  | [] => GoResult.panicked
  | h0 :: _ =>
    let rank : Int :=
      match hosts.findIdx? (fun h => ips.contains h) with
      | some i => (i : Int)
      | none => -1
    if hosts.length = 1 ∧ h0 = "localhost" then GoResult.ok (h0, 1)
    else if rank = -1 then GoResult.err errOmitHostMsg
    else GoResult.ok (h0, rank)

/-- Go `masterAndRankElseExit` (CLI helpers): `ErrOmitHost` exits the
process with status 0 after an informational message; any other error
exits with status 1. -/
def masterAndRankElseExit (ips hosts : List String) : ExitOr (String × Int) :=
  match masterAndRank ips hosts with
  | GoResult.ok mr => ExitOr.cont mr
  | GoResult.err msg => if msg = errOmitHostMsg then ExitOr.exit 0 else ExitOr.exit 1
  | GoResult.panicked => ExitOr.panicked

/-- Go `masterHostElseFirstHost` (run.go): the explicit `MasterHost`
override when present and non-empty, else `Hosts[0]` (an index panic on
an empty host list). -/
def masterHostElseFirstHost (args : RunArgs) : GoResult String :=
  match args.MasterHost with
  | some m =>
    if m ≠ "" then GoResult.ok m
    else match args.Hosts with
         | [] => GoResult.panicked
         | h :: _ => GoResult.ok h
  | none =>
    match args.Hosts with
    | [] => GoResult.panicked
    | h :: _ => GoResult.ok h

/-- The master/rank selection of `Run` (run.go lines 87-94): `master`
starts as `masterHostElseFirstHost`; with more than one host the rank
comes from `masterAndRankElseExit` (its master output is discarded),
with a single host `master` becomes `"localhost"` and the rank stays 0. -/
def runMasterAndRank (ips : List String) (args : RunArgs) : ExitOr (String × Int) :=
  match masterHostElseFirstHost args with
  | GoResult.panicked => ExitOr.panicked
  | GoResult.err _ => ExitOr.exit 1
  | GoResult.ok master =>
    if 1 < args.Hosts.length then
      match masterAndRankElseExit ips args.Hosts with
      | ExitOr.cont mr => ExitOr.cont (master, mr.2)
      | ExitOr.exit c => ExitOr.exit c
      | ExitOr.panicked => ExitOr.panicked
    else ExitOr.cont ("localhost", 0)

/-- Numeric value of an ASCII digit string, the semantics of
`strconv.Atoi` on an all-digit input. -/
def digitsVal (ds : List Char) : Nat :=
  ds.foldl (fun a c => a * 10 + (c.toNat - 48)) 0

/-- Matching a literal character sequence at the head of the input,
returning the remainder. -/
def stripLit : List Char → List Char → Option (List Char)
  | [], cs => some cs
  | _ :: _, [] => none
  | l :: ls, c :: cs => if c = l then stripLit ls cs else none

/-- One anchored attempt of the regexp `Exited \((\d+)\)` (docker_misc.go):
the literal `"Exited ("`, then a maximal non-empty ASCII digit run, then
`')'`.  Because `\d+` can only shrink onto digits and `)` is not a digit,
the greedy maximal run is the only candidate, so this matcher is exact. -/
def exitedAt (cs : List Char) : Option (List Char) :=
  match stripLit "Exited (".toList cs with
  | none => none
  | some rest =>
    let ds := rest.takeWhile Char.isDigit
    if ds.isEmpty then none
    else
      match rest.drop ds.length with
      | ')' :: _ => some ds
      | _ => none

/-- Leftmost match of the regexp `Exited \((\d+)\)`, as
`regexp.FindStringSubmatch` produces it: the submatch digit run of the
leftmost position where the whole pattern matches. -/
def findExitedMarker : List Char → Option (List Char)
  | [] => none
  | c :: cs =>
    match exitedAt (c :: cs) with
    | some ds => some ds
    | none => findExitedMarker cs

/-- Go `getExitCode` (docker_misc.go): when the status string carries no
`Exited (N)` marker the exit code is 0; otherwise the digits are
converted with `strconv.Atoi`, which fails above `MaxInt64`. -/
def getExitCode (status : String) : GoResult Int :=
  match findExitedMarker status.toList with
  | none => GoResult.ok 0
  | some ds =>
    let n := digitsVal ds
    if n ≤ 9223372036854775807 then GoResult.ok (n : Int)
    else GoResult.err "failed to convert exit code"

/-- One container as returned by the daemon's list-by-name query; this
program reads only the first name, the state and the status line. -/
structure DockerContainer where
  Names  : List String
  State  : String
  Status : String
deriving DecidableEq, Repr

/-- The exact-name scan of `containerStateAndExitCode` (docker_misc.go
lines 97-107): the first container whose `Names[0]` equals
`"/" ++ containerName`; reading `Names[0]` of an empty name list is an
index panic. -/
def findByExactName : List DockerContainer → String → GoResult (Option DockerContainer)
  | [], _ => GoResult.ok none
  | c :: t, n =>
    match c.Names with
    | [] => GoResult.panicked
    | n0 :: _ => if n0 = "/" ++ n then GoResult.ok (some c) else findByExactName t n

/-- Result of `containerStateAndExitCode`: Go returns
`(state, exitCode, error)`, where the not-found case is the triple
`("", 1, ErrContainerNotFound)` and callers distinguish
`ErrContainerNotFound` from other errors. -/
inductive CSECRes where
  | found (state : String) (code : Int)
  | notFound
  | errMsg (msg : String)
  | panicked
deriving DecidableEq, Repr

/-- Go `containerStateAndExitCode` (docker_misc.go): empty-name guard,
exact-name scan over the daemon's (already filtered) container list,
then `getExitCode` on the matched container's status line; a missing
container yields the fixed bad exit code 1 under `ErrContainerNotFound`.
The docker client handle (nil-client guard, transport errors) is outside
the model; `containers` is the query result. -/
def containerStateAndExitCode (containers : List DockerContainer)
    (containerName : String) : CSECRes :=
  if containerName = "" then CSECRes.errMsg "container name is empty"
  else
    match findByExactName containers containerName with
    | GoResult.panicked => CSECRes.panicked
    | GoResult.err m => CSECRes.errMsg m
    | GoResult.ok none => CSECRes.notFound
    | GoResult.ok (some c) =>
      match getExitCode c.Status with
      | GoResult.err m => CSECRes.errMsg m
      | GoResult.panicked => CSECRes.panicked
      | GoResult.ok code => CSECRes.found c.State code

/-- Go struct `ProjectExperimentState` (ism.go). -/
structure ProjectExperimentState where
  ProjectName    : String
  ExperimentName : String
  State          : State
  RunArgs        : RunArgs
deriving DecidableEq, Repr

/-- Go method `ProjectExperimentState.Name`. -/
def ProjectExperimentState.Name (p : ProjectExperimentState) : String :=
  p.ProjectName ++ "-" ++ p.ExperimentName

/-- Go method `ProjectExperimentState.NameAsType`. -/
def ProjectExperimentState.NameAsType (p : ProjectExperimentState) : ProjectExperimentStr :=
  p.Name

/-- The state directory, embedded as an association list from full file
paths to file bodies; a body is the `json.Marshal` image of a `RunArgs`
value and is represented by that value (see the header comment). -/
abbrev FSDir := List (String × RunArgs)

/-- `filepath.Join` for the shapes used here (an already clean directory
and a bare file name): insert exactly one separator. -/
def filepathJoin (dir name : String) : String :=
  if endsWithChar dir '/' then dir ++ name else dir ++ "/" ++ name

/-- Go method `ProjectExperimentState.Write` (ism.go): create (truncate)
the file `filepath.Join(restartPath, project.experiment.state)` and write
the marshalled `RunArgs` as its body. -/
def ProjectExperimentState.Write (p : ProjectExperimentState)
    (restartPath : String) (fs : FSDir) : FSDir :=
  upsert fs
    (filepathJoin restartPath (p.ProjectName ++ "." ++ p.ExperimentName ++ "." ++ p.State))
    p.RunArgs

/-- Go struct `InnerStateManager` (ism.go).  `States` is a Go map left
uninitialized by the constructor; `none` embeds the nil map (reads and
range loops over a nil map succeed, writes panic). -/
structure InnerStateManager where
  defaultRestartPath : String
  States : Option (List (ProjectExperimentStr × ProjectExperimentState))
deriving DecidableEq, Repr

/-- Go `NewInnerStateManager` (ism.go): makes the restart directory and
returns `&InnerStateManager{defaultRestartPath: restartPath}` — the
`States` field is never initialized, so it is the nil map.  The
`os.MkdirAll` call and its failure mode are outside the model. -/
def NewInnerStateManager (restartPath : String) : InnerStateManager :=
  { defaultRestartPath := restartPath, States := none }

/-- Go constant `restartDir = "/tmp/invoker-states"` (ism.go). -/
def restartDir : String := "/tmp/invoker-states"

/-- Go `NewInnerStateManagerWithDefPath` (ism.go). -/
def NewInnerStateManagerWithDefPath : InnerStateManager :=
  NewInnerStateManager restartDir

/-- Go method `InnerStateManager.SetState` (ism.go): builds the new
`ProjectExperimentState` and executes `r.States[newState.NameAsType()] =
newState`.  On the nil map this assignment is a runtime panic. -/
def InnerStateManager.SetState (r : InnerStateManager)
    (projectName experimentName : String) (state : State) (runArgs : RunArgs) :
    GoResult InnerStateManager :=
  let newState : ProjectExperimentState :=
    { ProjectName := projectName, ExperimentName := experimentName,
      State := state, RunArgs := runArgs }
  match r.States with
  | none => GoResult.panicked
  | some m => GoResult.ok { r with States := some (upsert m newState.NameAsType newState) }

/-- Go method `InnerStateManager.GetState` (ism.go): a linear scan of the
`States` map (range over a nil map runs zero iterations). -/
def InnerStateManager.GetState (r : InnerStateManager)
    (projectName experimentName : String) : GoResult State :=
  match (r.States.getD []).find?
      (fun pr => pr.2.ProjectName = projectName ∧ pr.2.ExperimentName = experimentName) with
  | some pr => GoResult.ok pr.2.State
  | none =>
    GoResult.err ("state for project " ++ projectName ++ " experiment "
      ++ experimentName ++ " not found")

/-- Insertion of a string into a sorted list, for the sorted directory
listing `os.ReadDir` returns. -/
def insertSorted (s : String) : List String → List String
  | [] => [s]
  | t :: ts => if s < t then s :: t :: ts else t :: insertSorted s ts

/-- Sort a list of file names, as `os.ReadDir` does. -/
def sortNames (l : List String) : List String := l.foldr insertSorted []

/-- `os.ReadDir` on the state directory: the sorted base names of the
entries directly inside `dir`.  The model's file system holds regular
files only, so every listed entry has `IsDir() == false`. -/
def dirEntryNames (fs : FSDir) (dir : String) : List String :=
  let pfx := if endsWithChar dir '/' then dir else dir ++ "/"
  sortNames (fs.filterMap (fun pr =>
    if hasPrefixGo pr.1 pfx then
      let rest := String.mk (pr.1.toList.drop pfx.toList.length)
      if rest.toList.contains '/' || rest = "" then none else some rest
    else none))

/-- Go method `InnerStateManager.isStateFile` (ism.go): the name splits
into exactly three dot-separated tokens. -/
def InnerStateManager.isStateFile (_ : InnerStateManager) (filename : String) : Bool :=
  (splitChar filename '.').length == 3

/-- Go method `InnerStateManager.readState` (ism.go): opens
`r.defaultRestartPath + stateFile` — plain string concatenation, with no
path separator, unlike the `filepath.Join` in `Write` — then validates
the three-token name, then decodes the body as `RunArgs`.  Since bodies
in the model are marshalled `RunArgs` values, the decode step returns
the stored value. -/
def InnerStateManager.readState (r : InnerStateManager) (fs : FSDir)
    (stateFile : String) : GoResult ProjectExperimentState :=
  match alook fs (r.defaultRestartPath ++ stateFile) with
  | none => GoResult.err ("failed to open state file " ++ stateFile)
  | some runArgs =>
    let stateDesc := splitChar stateFile '.'
    if stateDesc.length ≠ 3 then
      GoResult.err ("invalid state file name " ++ stateFile)
    else if !isValidState (stateDesc.getD 2 "") then
      GoResult.err ("invalid state " ++ stateDesc.getD 2 "")
    else
      GoResult.ok
        { ProjectName := stateDesc.getD 0 "", ExperimentName := stateDesc.getD 1 "",
          State := stateDesc.getD 2 "", RunArgs := runArgs }

/-- The per-file loop of `InnerStateManager.FillStates` (ism.go):
directories are skipped (none exist in the model), names that are not
three-token state files are skipped, every remaining file goes through
`readState` (whose error aborts the load) and is inserted with
`r.States[state.NameAsType()] = *state` — a panic when `States` is the
nil map. -/
def fillStatesLoop (fs : FSDir) : InnerStateManager → List String → GoResult InnerStateManager
  | r, [] => GoResult.ok r
  | r, f :: t =>
    if !r.isStateFile f then fillStatesLoop fs r t
    else
      match r.readState fs f with
      | GoResult.err e => GoResult.err e
      | GoResult.panicked => GoResult.panicked
      | GoResult.ok st =>
        match r.States with
        | none => GoResult.panicked
        | some m =>
          fillStatesLoop fs { r with States := some (upsert m st.NameAsType st) } t

/-- Go method `InnerStateManager.FillStates` (ism.go). -/
def InnerStateManager.FillStates (r : InnerStateManager) (fs : FSDir) :
    GoResult InnerStateManager :=
  fillStatesLoop fs r (dirEntryNames fs r.defaultRestartPath)

/-- Removal of one file, `os.Remove`: fails when the path does not
exist. -/
def removeFile (fs : FSDir) (p : String) : Option FSDir :=
  match fs with
  | [] => none
  | pr :: t =>
    if pr.1 = p then some t
    else match removeFile t p with
         | none => none
         | some t2 => some (pr :: t2)

/-- The deletion loop of `InnerStateManager.UpdateStates` (ism.go lines
190-198): an entry is skipped only when it is a directory whose name is
not a three-token state file (no directories exist in the model, so
nothing is skipped), and every other entry is removed via
`os.Remove(r.defaultRestartPath + file.Name())` — again plain string
concatenation with no path separator. -/
def removeLoop (r : InnerStateManager) : FSDir → List String → GoResult FSDir
  | fs, [] => GoResult.ok fs
  | fs, f :: t =>
    match removeFile fs (r.defaultRestartPath ++ f) with
    | none => GoResult.err ("failed to remove file " ++ f)
    | some fs2 => removeLoop r fs2 t

/-- Go method `InnerStateManager.UpdateStates` (ism.go): list the
directory, run the deletion loop, then write one file per in-memory
entry with `ProjectExperimentState.Write` (a range over the nil map
writes nothing). -/
def InnerStateManager.UpdateStates (r : InnerStateManager) (fs : FSDir) :
    GoResult FSDir :=
  match removeLoop r fs (dirEntryNames fs r.defaultRestartPath) with
  | GoResult.err e => GoResult.err e
  | GoResult.panicked => GoResult.panicked
  | GoResult.ok fs1 =>
    GoResult.ok ((r.States.getD []).foldl
      (fun acc pr => pr.2.Write r.defaultRestartPath acc) fs1)

/-- A well-formed launch configuration used as concrete input; its `Rest`
carries the restart-intent token, so its derived desired state is
`Running`. -/
def cfg0 : RunArgs :=
  { ProjectName := "pa", Hosts := ["10.0.0.1", "10.0.0.2"], NProcPerNode := 2,
    ExperimentName := "e1", Port := 29500, RunName := "r1", MaxRepeats := -1,
    Rest := ["hf_action_restartable=running"], ContainerName := none,
    MasterHost := none, NoPython := none }

/-- `cfg0` with a different per-node process count — the configuration
drift used in the conflict scenarios. -/
def cfg0drift : RunArgs := { cfg0 with NProcPerNode := 4 }

/-- A second job's configuration, used as the unrelated healthy job in
the conflict scenarios. -/
def cfgE2 : RunArgs := { cfg0 with ExperimentName := "e2" }

/-- Observation: expected `Running`, container live (exit marker 137). -/
def smLive : StateMatch := { Expected := Running, Actual := 137, RunArgs := cfg0 }

/-- Observation: expected `Running`, container crashed with exit code 1. -/
def smCrash : StateMatch := { Expected := Running, Actual := 1, RunArgs := cfg0 }

/-- Local page of host 10.0.0.1 for the end-to-end restart scenario. -/
def pageLive1 : RetStatePage := [("10.0.0.1", [("proj-exp", smLive)])]

/-- Peer page of host 10.0.0.2 reporting the crash. -/
def pageCrash2 : RetStatePage := [("10.0.0.2", [("proj-exp", smCrash)])]

/-- Peer page of host 10.0.0.2 reporting the container live. -/
def pageLive2 : RetStatePage := [("10.0.0.2", [("proj-exp", smLive)])]

/-- Local page for the conflict scenario: host 10.0.0.1 reports job
`pa-e1` with `cfg0` and the unrelated job `pa-e2` crashed. -/
def pageConflictA : RetStatePage :=
  [("10.0.0.1",
    [("pa-e1", { Expected := Running, Actual := 1, RunArgs := cfg0 }),
     ("pa-e2", { Expected := Running, Actual := 1, RunArgs := cfgE2 })])]

/-- Peer page for the conflict scenario: host 10.0.0.2 reports `pa-e1`
with a drifted `NProcPerNode` and agrees on `pa-e2`. -/
def pageConflictB : RetStatePage :=
  [("10.0.0.2",
    [("pa-e1", { Expected := Running, Actual := 1, RunArgs := cfg0drift }),
     ("pa-e2", { Expected := Running, Actual := 1, RunArgs := cfgE2 })])]

/-! ## Helper lemmas about the gob field stream -/

theorem gobEmit_key_ge (l : List (Option GobVal)) :
    ∀ (k : Nat) (p : Nat × GobVal), p ∈ gobEmit k l → k ≤ p.1 := by
  induction l with
  | nil => intro k p hp; simp [gobEmit] at hp
  | cons hd t ih =>
    intro k p hp
    cases hd with
    | none =>
      have := ih (k + 1) p (by simpa [gobEmit] using hp)
      omega
    | some v =>
      simp only [gobEmit, List.mem_cons] at hp
      rcases hp with h | h
      · subst h; exact Nat.le_refl k
      · have := ih (k + 1) p h
        omega

theorem gobEmit_inj (l₁ : List (Option GobVal)) :
    ∀ (l₂ : List (Option GobVal)) (k : Nat), l₁.length = l₂.length →
      gobEmit k l₁ = gobEmit k l₂ → l₁ = l₂ := by
  induction l₁ with
  | nil =>
    intro l₂ k hlen _
    cases l₂ with
    | nil => rfl
    | cons h t => simp at hlen
  | cons h₁ t₁ ih =>
    intro l₂ k hlen heq
    cases l₂ with
    | nil => simp at hlen
    | cons h₂ t₂ =>
      have hlen' : t₁.length = t₂.length := by simpa using hlen
      cases h₁ with
      | none =>
        cases h₂ with
        | none =>
          have := ih t₂ (k + 1) hlen' (by simpa [gobEmit] using heq)
          rw [this]
        | some v₂ =>
          exfalso
          have hmem : (k, v₂) ∈ gobEmit (k + 1) t₁ := by
            simp only [gobEmit] at heq
            rw [heq]; exact List.mem_cons_self _ _
          have := gobEmit_key_ge t₁ (k + 1) (k, v₂) hmem
          omega
      | some v₁ =>
        cases h₂ with
        | none =>
          exfalso
          have hmem : (k, v₁) ∈ gobEmit (k + 1) t₂ := by
            simp only [gobEmit] at heq
            rw [← heq]; exact List.mem_cons_self _ _
          have := gobEmit_key_ge t₂ (k + 1) (k, v₁) hmem
          omega
        | some v₂ =>
          simp only [gobEmit, List.cons.injEq, Prod.mk.injEq] at heq
          obtain ⟨⟨_, hv⟩, ht⟩ := heq
          have := ih t₂ (k + 1) hlen' ht
          rw [hv, this]

theorem gobStr_inj (x y : String) : gobStr x = gobStr y ↔ x = y := by
  constructor
  · intro h
    unfold gobStr at h
    by_cases hx : x = "" <;> by_cases hy : y = ""
    · rw [hx, hy]
    · rw [if_pos hx, if_neg hy] at h; exact absurd h (by simp)
    · rw [if_neg hx, if_pos hy] at h; exact absurd h (by simp)
    · rw [if_neg hx, if_neg hy] at h
      exact GobVal.s.inj (Option.some.inj h)
  · intro h; rw [h]

theorem gobInt_inj (x y : Int) : gobInt x = gobInt y ↔ x = y := by
  constructor
  · intro h
    unfold gobInt at h
    by_cases hx : x = 0 <;> by_cases hy : y = 0
    · rw [hx, hy]
    · rw [if_pos hx, if_neg hy] at h; exact absurd h (by simp)
    · rw [if_neg hx, if_pos hy] at h; exact absurd h (by simp)
    · rw [if_neg hx, if_neg hy] at h
      exact GobVal.i.inj (Option.some.inj h)
  · intro h; rw [h]

theorem gobList_inj (x y : List String) : gobList x = gobList y ↔ x = y := by
  constructor
  · intro h
    unfold gobList at h
    by_cases hx : x = [] <;> by_cases hy : y = []
    · rw [hx, hy]
    · rw [if_pos hx, if_neg hy] at h; exact absurd h (by simp)
    · rw [if_neg hx, if_pos hy] at h; exact absurd h (by simp)
    · rw [if_neg hx, if_neg hy] at h
      exact GobVal.l.inj (Option.some.inj h)
  · intro h; rw [h]

/-- Gob's view of a `*string` field: a nil pointer and a pointer to the
empty string are both omitted; any other pointer is seen through. -/
def ptrNorm (v : Option String) : Option String :=
  match v with
  | none => none
  | some s => if s = "" then none else some s

theorem gobPtrStr_eq_map (v : Option String) :
    gobPtrStr v = (ptrNorm v).map GobVal.s := by
  cases v with
  | none => rfl
  | some s =>
    by_cases hs : s = "" <;> simp [gobPtrStr, ptrNorm, gobStr, hs]

theorem gobPtrStr_inj (x y : Option String) :
    gobPtrStr x = gobPtrStr y ↔ ptrNorm x = ptrNorm y := by
  rw [gobPtrStr_eq_map, gobPtrStr_eq_map]
  constructor
  · intro h
    exact Option.map_injective (fun a b hab => GobVal.s.inj hab) h
  · intro h; rw [h]

theorem equal_iff_gobFields (a b : RunArgs) :
    RunArgs.Equal a b = true ↔ gobFields a = gobFields b := by
  simp [RunArgs.Equal]

theorem equal_iff_fieldOpts (a b : RunArgs) :
    RunArgs.Equal a b = true ↔ gobFieldOpts a = gobFieldOpts b := by
  rw [equal_iff_gobFields]
  constructor
  · intro h
    exact gobEmit_inj (gobFieldOpts a) (gobFieldOpts b) 0 rfl h
  · intro h
    unfold gobFields
    rw [h]

/-! ## C9 -/

/-- C9 (amended): `Equal(A,B)` holds iff the two configurations agree
field-by-field, where the three optional pointer fields are compared
after gob's zero-value normalization (a nil pointer is identified with a
pointer to the empty string); all other fields must match exactly. -/
theorem equal_iff_fields_up_to_gob_zero (a b : RunArgs) :
    RunArgs.Equal a b = true ↔
      (a.ProjectName = b.ProjectName ∧ a.Hosts = b.Hosts ∧
       a.NProcPerNode = b.NProcPerNode ∧ a.ExperimentName = b.ExperimentName ∧
       a.Port = b.Port ∧ a.RunName = b.RunName ∧ a.MaxRepeats = b.MaxRepeats ∧
       a.Rest = b.Rest ∧ ptrNorm a.ContainerName = ptrNorm b.ContainerName ∧
       ptrNorm a.MasterHost = ptrNorm b.MasterHost ∧
       ptrNorm a.NoPython = ptrNorm b.NoPython) := by
  rw [equal_iff_fieldOpts]
  simp only [gobFieldOpts, List.cons.injEq, and_true]
  rw [gobStr_inj, gobList_inj, gobInt_inj, gobStr_inj, gobInt_inj, gobStr_inj,
    gobInt_inj, gobList_inj, gobPtrStr_inj, gobPtrStr_inj, gobPtrStr_inj]

/-- `cfg0` with `ContainerName` changed from a nil pointer to a pointer
to the empty string. -/
def cfgPtrEmpty : RunArgs := { cfg0 with ContainerName := some "" }

/-- C9 (counterexample): changing the single field `ContainerName` of
`cfg0` from nil to a pointer to `""` does not flip `Equal` — the two
values differ in that field yet compare equal, refuting the claim that
any single-field change makes `Equal` false. -/
theorem equal_misses_pointer_change_cex :
    RunArgs.Equal cfg0 cfgPtrEmpty = true ∧
    cfg0.ContainerName ≠ cfgPtrEmpty.ContainerName ∧
    cfg0 ≠ cfgPtrEmpty ∧
    (cfg0.ProjectName = cfgPtrEmpty.ProjectName ∧ cfg0.Hosts = cfgPtrEmpty.Hosts ∧
     cfg0.NProcPerNode = cfgPtrEmpty.NProcPerNode ∧
     cfg0.ExperimentName = cfgPtrEmpty.ExperimentName ∧
     cfg0.Port = cfgPtrEmpty.Port ∧ cfg0.RunName = cfgPtrEmpty.RunName ∧
     cfg0.MaxRepeats = cfgPtrEmpty.MaxRepeats ∧ cfg0.Rest = cfgPtrEmpty.Rest ∧
     cfg0.MasterHost = cfgPtrEmpty.MasterHost ∧
     cfg0.NoPython = cfgPtrEmpty.NoPython) := by
  refine ⟨by decide, by decide, by decide, by decide⟩

/-! ## C4 -/

/-- C4: the restart predicate is
`Expected == Running AND (Actual ∈ {1,255} OR Actual ∉ {0,137})`, with
the truth-table consequences: `(Running,1)` restarts, `(Running,137)`
and `(Running,0)` do not, `(Stoppable, e)` never restarts for any exit
code, and `(Running,42)` restarts although 42 is in neither listed set. -/
theorem shouldRestart_truth_table :
    (∀ s : StateMatch,
       s.ShouldRestart = true ↔
         (s.Expected = Running ∧
           ((s.Actual = 1 ∨ s.Actual = 255) ∨ ¬(s.Actual = 0 ∨ s.Actual = 137)))) ∧
    (∀ cfg, StateMatch.ShouldRestart ⟨Running, 1, cfg⟩ = true) ∧
    (∀ cfg, StateMatch.ShouldRestart ⟨Running, 137, cfg⟩ = false) ∧
    (∀ cfg, StateMatch.ShouldRestart ⟨Running, 0, cfg⟩ = false) ∧
    (∀ cfg (e : Int), StateMatch.ShouldRestart ⟨Stoppable, e, cfg⟩ = false) ∧
    (∀ cfg, StateMatch.ShouldRestart ⟨Running, 42, cfg⟩ = true) := by
  refine ⟨?_, fun _ => rfl, fun _ => rfl, fun _ => rfl, fun _ _ => rfl, fun _ => rfl⟩
  intro s
  simp [StateMatch.ShouldRestart, badExitCodes, okExitCodes, List.contains_cons,
    or_assoc]

/-! ## C5 -/

/-- The token test the scanning loop effectively applies: the Go prefix
test together with `"running"` at split index 1. -/
def restartToken (arg : String) : Bool :=
  hasPrefixGo arg "hf_action_restartable" && ((splitChar arg '=').get? 1 == some "running")

/-- C5 (counterexample): `Restartable` is neither exact-token nor total.
A token with extra characters between the prefix `hf_action_restartable`
and `=` still yields `Running`, although the exact token
`hf_action_restartable=running` is absent; and a bare
`hf_action_restartable` token (no `=`) makes the derivation panic
(index out of range), so it is not a total function on arbitrary `Rest`
lists. -/
theorem restartable_prefix_token_cex :
    RunArgs.Restartable { cfg0 with Rest := ["hf_action_restartablezzz=running"] } =
      some Running ∧
    ("hf_action_restartable=running" ∈ ["hf_action_restartablezzz=running"]) = False ∧
    RunArgs.Restartable { cfg0 with Rest := ["hf_action_restartable"] } = none := by
  refine ⟨by decide, by simp, by decide⟩

/-- C5 (amended): on `Rest` lists in which every token carrying the
prefix `hf_action_restartable` contains at least one `=` (so the index
access cannot panic), the derivation is `Running` iff some token starts
with `hf_action_restartable` and has `running` as its second
`=`-component; otherwise it is `Stoppable`.  On lists violating that
condition the derivation can panic, so it is not total. -/
theorem restartable_prefix_semantics (r : RunArgs)
    (h : ∀ arg ∈ r.Rest, hasPrefixGo arg "hf_action_restartable" = true →
      ((splitChar arg '=').get? 1).isSome = true) :
    RunArgs.Restartable r =
      some (if r.Rest.any restartToken then Running else Stoppable) := by
  have loop : ∀ (l : List String),
      (∀ arg ∈ l, hasPrefixGo arg "hf_action_restartable" = true →
        ((splitChar arg '=').get? 1).isSome = true) →
      restartableLoop l = some (if l.any restartToken then Running else Stoppable) := by
    intro l
    induction l with
    | nil => intro _; rfl
    | cons arg t ih =>
      intro hl
      have ht := ih (fun a ha hpa => hl a (List.mem_cons_of_mem _ ha) hpa)
      by_cases hpre : hasPrefixGo arg "hf_action_restartable" = true
      · have hsome := hl arg (List.mem_cons_self _ _) hpre
        obtain ⟨st, hst⟩ := Option.isSome_iff_exists.mp hsome
        by_cases hrun : st = "running"
        · subst hrun
          have htok : restartToken arg = true := by
            simp only [restartToken, hpre, Bool.true_and, hst]; rfl
          simp only [restartableLoop, hpre, if_true, hst, List.any_cons, htok,
            Bool.true_or, if_pos]
        · have htok : restartToken arg = false := by
            simp only [restartToken, hpre, Bool.true_and, hst]
            simp [hrun]
          simp only [restartableLoop, hpre, if_true, hst, List.any_cons, htok,
            Bool.false_or, hrun, if_false, ht]
      · have hpre' : hasPrefixGo arg "hf_action_restartable" = false :=
          Bool.eq_false_iff.mpr hpre
        have htok : restartToken arg = false := by
          simp [restartToken, hpre']
        simp only [restartableLoop, hpre', Bool.false_eq_true, if_false,
          List.any_cons, htok, Bool.false_or, ht]
  have key : ∀ l : List String,
      (if l.isEmpty then some Stoppable else restartableLoop l) = restartableLoop l := by
    intro l; cases l <;> rfl
  unfold RunArgs.Restartable
  rw [key]
  exact loop r.Rest h

/-- C5 (witness): the amended semantics applied to concrete `Rest`
lists — a prefixed later token yields `Running`; a prefixed token with a
non-`running` value yields `Stoppable`. -/
theorem restartable_prefix_semantics_witness :
    RunArgs.Restartable { cfg0 with Rest := ["lr=3", "hf_action_restartable=running"] } =
      some Running ∧
    RunArgs.Restartable { cfg0 with Rest := ["hf_action_restartable=never"] } =
      some Stoppable := by
  constructor
  · exact (restartable_prefix_semantics
      { cfg0 with Rest := ["lr=3", "hf_action_restartable=running"] }
      (by decide)).trans (by decide)
  · exact (restartable_prefix_semantics
      { cfg0 with Rest := ["hf_action_restartable=never"] }
      (by decide)).trans (by decide)

/-! ## Association-list lemmas for the merge-and-decide development -/

theorem akeys_cons {α β : Type} (p : α × β) (t : List (α × β)) :
    akeys (p :: t) = p.1 :: akeys t := rfl

theorem alook_eq_none_of_not_mem {α : Type} [DecidableEq α] {β : Type}
    (l : List (α × β)) (k : α) (h : k ∉ akeys l) : alook l k = none := by
  induction l with
  | nil => rfl
  | cons p t ih =>
    cases p with
    | mk k' v' =>
      rw [akeys_cons] at h
      simp only [List.mem_cons, not_or] at h
      obtain ⟨h1, h2⟩ := h
      simp only [alook]
      rw [if_neg (fun hh : k' = k => h1 hh.symm)]
      exact ih h2

theorem upsert_akeys {α : Type} [DecidableEq α] {β : Type}
    (l : List (α × β)) (k : α) (v : β) :
    akeys (upsert l k v) = if k ∈ akeys l then akeys l else akeys l ++ [k] := by
  induction l with
  | nil => simp [upsert, akeys]
  | cons p t ih =>
    cases p with
    | mk k' v' =>
      by_cases h : k' = k
      · subst h
        simp [upsert, akeys_cons]
      · simp only [upsert, if_neg h, akeys_cons, ih]
        by_cases hm : k ∈ akeys t
        · rw [if_pos hm, if_pos (List.mem_cons_of_mem _ hm)]
        · rw [if_neg hm, if_neg ?_]
          · simp
          · simp only [List.mem_cons, not_or]
            exact ⟨fun hh => h hh.symm, hm⟩

theorem upsert_akeys_nodup {α : Type} [DecidableEq α] {β : Type}
    (l : List (α × β)) (k : α) (v : β) (h : (akeys l).Nodup) :
    (akeys (upsert l k v)).Nodup := by
  rw [upsert_akeys]
  by_cases hm : k ∈ akeys l
  · rw [if_pos hm]; exact h
  · rw [if_neg hm]
    simp [List.nodup_append, h, hm]

theorem foldl_preserve {σ α : Type} (P : σ → Prop) (step : σ → α → σ)
    (hstep : ∀ s a, P s → P (step s a)) :
    ∀ (l : List α) (s : σ), P s → P (l.foldl step s) := by
  intro l
  induction l with
  | nil => intro s h; exact h
  | cons a t ih => intro s h; exact ih (step s a) (hstep s a h)

/-- The grouping map never holds two rows for the same experiment: its
key list is duplicate-free. -/
theorem groupByExperiment_akeys_nodup (p : RetStatePage) :
    (akeys (groupByExperiment p)).Nodup := by
  unfold groupByExperiment
  apply foldl_preserve (fun g => (akeys g).Nodup)
  · intro g hes hg
    apply foldl_preserve (fun g2 => (akeys g2).Nodup)
    · intro g2 esm h2
      exact upsert_akeys_nodup _ _ _ h2
    · exact hg
  · simp [akeys]

/-! ## Lemmas about the per-group host loop -/

/-- When the host loop succeeds, its failed-host list is exactly the
hosts whose observation satisfies the restart predicate, in order. -/
theorem checkGroup_ok_failed (ref : RunArgs) :
    ∀ (hs : List (Host × StateMatch)) (failed : List Host),
      checkGroup ref hs = Except.ok failed →
      failed = (hs.filter (fun pr => pr.2.ShouldRestart)).map Prod.fst := by
  intro hs
  induction hs with
  | nil =>
    intro failed h
    simp only [checkGroup] at h
    simpa using (Except.ok.inj h).symm
  | cons p t ih =>
    intro failed h
    cases p with
    | mk hh sm =>
      simp only [checkGroup] at h
      by_cases he : ref.Equal sm.RunArgs = true
      · rw [if_pos he] at h
        cases hcg : checkGroup ref t with
        | error e => rw [hcg] at h; exact absurd h (by simp)
        | ok fh =>
          rw [hcg] at h
          have hfe := Except.ok.inj h
          have hft := ih fh hcg
          by_cases hr : sm.ShouldRestart = true
          · rw [if_pos hr] at hfe
            simp [List.filter_cons, hr, ← hfe, hft]
          · rw [if_neg hr] at hfe
            simp only [Bool.not_eq_true] at hr
            simp [List.filter_cons, hr, ← hfe, hft]
      · rw [if_neg he] at h
        exact absurd h (by simp)

/-- The host loop has a single error site, with a fixed message. -/
theorem checkGroup_error_msg (ref : RunArgs) :
    ∀ (hs : List (Host × StateMatch)) (m : String),
      checkGroup ref hs = Except.error m → m = "run args are not equal" := by
  intro hs
  induction hs with
  | nil => intro m h; simp only [checkGroup] at h; exact absurd h (by simp)
  | cons p t ih =>
    intro m h
    cases p with
    | mk hh sm =>
      simp only [checkGroup] at h
      by_cases he : ref.Equal sm.RunArgs = true
      · rw [if_pos he] at h
        cases hcg : checkGroup ref t with
        | error e =>
          rw [hcg] at h
          exact (Except.error.inj h) ▸ ih e hcg
        | ok fh => rw [hcg] at h; exact absurd h (by simp)
      · rw [if_neg he] at h
        exact (Except.error.inj h).symm

/-- Any member whose configuration is not gob-equal to the reference
makes the host loop fail. -/
theorem checkGroup_error_of_mem (ref : RunArgs) :
    ∀ (hs : List (Host × StateMatch)) (p : Host × StateMatch), p ∈ hs →
      ref.Equal p.2.RunArgs = false →
      checkGroup ref hs = Except.error "run args are not equal" := by
  intro hs
  induction hs with
  | nil => intro p hp; exact absurd hp (by simp)
  | cons q t ih =>
    intro p hp hne
    cases q with
    | mk hh sm =>
      rcases List.mem_cons.mp hp with heq | hmem
      · subst heq
        simp only [checkGroup]
        rw [if_neg (by rw [hne]; exact Bool.false_ne_true)]
      · by_cases he : ref.Equal sm.RunArgs = true
        · simp only [checkGroup]
          rw [if_pos he, ih p hmem hne]
        · simp only [checkGroup]
          rw [if_neg he]

/-! ## Lemmas about the decision loop -/

/-- Every key of the produced restart table is a key of the grouped
input. -/
theorem joinDecide_mem_akeys :
    ∀ (g : List (ProjectExperimentStr × List (Host × StateMatch)))
      (rs : ExperimentHostPageToRestart),
      joinDecide g = Except.ok rs → ∀ x ∈ akeys rs, x ∈ akeys g := by
  intro g
  induction g with
  | nil =>
    intro rs h x hx
    simp only [joinDecide] at h
    have := Except.ok.inj h
    subst this
    exact absurd hx (by simp [akeys])
  | cons eg t ih =>
    intro rs h x hx
    cases eg with
    | mk e1 hs1 =>
      cases hs1 with
      | nil =>
        simp only [joinDecide] at h
        rw [akeys_cons]
        exact List.mem_cons_of_mem _ (ih rs h x hx)
      | cons p hs' =>
        cases p with
        | mk h0 sm0 =>
          simp only [joinDecide] at h
          cases hcg : checkGroup sm0.RunArgs ((h0, sm0) :: hs') with
          | error m => rw [hcg] at h; exact absurd h (by simp)
          | ok failed =>
            rw [hcg] at h
            cases hjd : joinDecide t with
            | error m => rw [hjd] at h; exact absurd h (by simp)
            | ok rest =>
              rw [hjd] at h
              have hr := Except.ok.inj h
              cases failed with
              | cons f fs =>
                rw [if_neg (by simp)] at hr
                subst hr
                rw [akeys_cons] at hx
                rw [akeys_cons]
                rcases List.mem_cons.mp hx with hxe | hxr
                · exact hxe ▸ List.mem_cons_self _ _
                · exact List.mem_cons_of_mem _ (ih rest hjd x hxr)
              | nil =>
                rw [if_pos (by simp)] at hr
                subst hr
                rw [akeys_cons]
                exact List.mem_cons_of_mem _ (ih rest hjd x hx)

/-- On a successful pass, the restart table maps an experiment whose
group is `(h0, sm0) :: hs'` to the reference configuration
`sm0.RunArgs` exactly when some member of the group satisfies the
restart predicate. -/
theorem joinDecide_alook :
    ∀ (g : List (ProjectExperimentStr × List (Host × StateMatch)))
      (rs : ExperimentHostPageToRestart) (e : ProjectExperimentStr)
      (h0 : Host) (sm0 : StateMatch) (hs' : List (Host × StateMatch)),
      (akeys g).Nodup → joinDecide g = Except.ok rs →
      (e, (h0, sm0) :: hs') ∈ g →
      alook rs e = if ((h0, sm0) :: hs').any (fun pr => pr.2.ShouldRestart)
                   then some sm0.RunArgs else none := by
  intro g
  induction g with
  | nil => intro rs e h0 sm0 hs' _ _ hmem; exact absurd hmem (by simp)
  | cons eg t ih =>
    intro rs e h0 sm0 hs' hnd hok hmem
    cases eg with
    | mk e1 hs1 =>
      rw [akeys_cons] at hnd
      have hnd1 : e1 ∉ akeys t := (List.nodup_cons.mp hnd).1
      have hndt : (akeys t).Nodup := (List.nodup_cons.mp hnd).2
      rcases List.mem_cons.mp hmem with heq | hmem'
      · have he : e = e1 := congrArg Prod.fst heq
        have hhs : (h0, sm0) :: hs' = hs1 := congrArg Prod.snd heq
        subst he
        subst hhs
        simp only [joinDecide] at hok
        cases hcg : checkGroup sm0.RunArgs ((h0, sm0) :: hs') with
        | error m => rw [hcg] at hok; exact absurd hok (by simp)
        | ok failed =>
          rw [hcg] at hok
          cases hjd : joinDecide t with
          | error m => rw [hjd] at hok; exact absurd hok (by simp)
          | ok rest =>
            rw [hjd] at hok
            have hr := Except.ok.inj hok
            have hfail := checkGroup_ok_failed _ _ _ hcg
            cases failed with
            | nil =>
              rw [if_pos (by simp)] at hr
              subst hr
              have hfilter :
                  ((h0, sm0) :: hs').filter (fun pr => pr.2.ShouldRestart) = [] :=
                List.map_eq_nil_iff.mp hfail.symm
              have hany :
                  ((h0, sm0) :: hs').any (fun pr => pr.2.ShouldRestart) = false := by
                rw [List.any_eq_false]
                intro x hx
                have := List.filter_eq_nil_iff.mp hfilter x hx
                simpa using this
              rw [hany]
              have hsub := joinDecide_mem_akeys t rest hjd
              have hnm : e ∉ akeys rest := fun hxx => hnd1 (hsub e hxx)
              simp [alook_eq_none_of_not_mem _ _ hnm]
            | cons f fs =>
              rw [if_neg (by simp)] at hr
              subst hr
              have hne :
                  ((h0, sm0) :: hs').filter (fun pr => pr.2.ShouldRestart) ≠ [] := by
                intro hnil
                rw [hnil] at hfail
                simp at hfail
              have hany :
                  ((h0, sm0) :: hs').any (fun pr => pr.2.ShouldRestart) = true := by
                rw [List.any_eq_true]
                obtain ⟨x, hx⟩ := List.exists_mem_of_ne_nil _ hne
                obtain ⟨hxm, hxp⟩ := List.mem_filter.mp hx
                exact ⟨x, hxm, hxp⟩
              rw [hany]
              simp [alook]
      · have hkey : e ∈ akeys t := by
          rw [akeys]
          exact List.mem_map_of_mem Prod.fst hmem'
        have hne1 : e ≠ e1 := fun hh => hnd1 (hh ▸ hkey)
        cases hs1 with
        | nil =>
          simp only [joinDecide] at hok
          exact ih rs e h0 sm0 hs' hndt hok hmem'
        | cons p hs1' =>
          cases p with
          | mk a b =>
            simp only [joinDecide] at hok
            cases hcg : checkGroup b.RunArgs ((a, b) :: hs1') with
            | error m => rw [hcg] at hok; exact absurd hok (by simp)
            | ok failed =>
              rw [hcg] at hok
              cases hjd : joinDecide t with
              | error m => rw [hjd] at hok; exact absurd hok (by simp)
              | ok rest =>
                rw [hjd] at hok
                have hr := Except.ok.inj hok
                have hihx := ih rest e h0 sm0 hs' hndt hjd hmem'
                cases failed with
                | nil =>
                  rw [if_pos (by simp)] at hr
                  subst hr
                  exact hihx
                | cons f fs =>
                  rw [if_neg (by simp)] at hr
                  subst hr
                  simp only [alook]
                  rw [if_neg (fun hh : e1 = e => hne1 hh.symm)]
                  exact hihx

/-- Gob-equality is compatible: two configurations each gob-equal to a
common reference are gob-equal to each other. -/
theorem equal_compat (r a b : RunArgs)
    (h1 : RunArgs.Equal r a = true) (h2 : RunArgs.Equal r b = true) :
    RunArgs.Equal a b = true := by
  simp only [RunArgs.Equal, decide_eq_true_eq] at h1 h2 ⊢
  rw [← h1, ← h2]

/-- A group containing two members with gob-unequal configurations makes
the whole decision loop fail with the single conflict error. -/
theorem joinDecide_error_of_conflict :
    ∀ (g : List (ProjectExperimentStr × List (Host × StateMatch)))
      (e : ProjectExperimentStr) (hs : List (Host × StateMatch))
      (p q : Host × StateMatch),
      (e, hs) ∈ g → p ∈ hs → q ∈ hs →
      p.2.RunArgs.Equal q.2.RunArgs = false →
      joinDecide g = Except.error "run args are not equal" := by
  intro g
  induction g with
  | nil => intro e hs p q hmem; exact absurd hmem (by simp)
  | cons eg t ih =>
    intro e hs p q hmem hp hq hneq
    cases eg with
    | mk e1 hs1 =>
      rcases List.mem_cons.mp hmem with heq | hmem'
      · have hhs : hs = hs1 := congrArg Prod.snd heq
        subst hhs
        cases hs with
        | nil => exact absurd hp (by simp)
        | cons r rs' =>
          cases r with
          | mk a b =>
            simp only [joinDecide]
            have hx : ∃ x ∈ (a, b) :: rs',
                RunArgs.Equal b.RunArgs x.2.RunArgs = false := by
              by_contra hall
              push_neg at hall
              have hb : ∀ x ∈ (a, b) :: rs',
                  RunArgs.Equal b.RunArgs x.2.RunArgs = true := by
                intro x hxm
                cases hEq : RunArgs.Equal b.RunArgs x.2.RunArgs with
                | false => exact absurd hEq (hall x hxm)
                | true => rfl
              have hpq := equal_compat b.RunArgs p.2.RunArgs q.2.RunArgs
                (hb p hp) (hb q hq)
              rw [hpq] at hneq
              exact absurd hneq (by simp)
            obtain ⟨x, hxm, hxe⟩ := hx
            rw [checkGroup_error_of_mem b.RunArgs _ x hxm hxe]
      · cases hs1 with
        | nil =>
          simp only [joinDecide]
          exact ih e hs p q hmem' hp hq hneq
        | cons r rs' =>
          cases r with
          | mk a b =>
            simp only [joinDecide]
            cases hcg : checkGroup b.RunArgs ((a, b) :: rs') with
            | error m =>
              rw [checkGroup_error_msg _ _ _ hcg]
            | ok failed =>
              rw [ih e hs p q hmem' hp hq hneq]

/-! ## C2 -/

/-- C2: on a pass in which the merge-and-decide operation succeeds, an
experiment whose merged observation group is `(h0, sm0) :: hs'` (the
head is the reference observation) is mapped in the `RestartSet` to the
reference configuration `sm0.RunArgs` if and only if at least one
observing host's `StateMatch` satisfies the restart predicate; otherwise
it is absent. -/
theorem restartSet_iff_some_host_restarts
    (lp : RetStatePage) (pages : List RetStatePage)
    (rs : ExperimentHostPageToRestart) (e : ProjectExperimentStr)
    (h0 : Host) (sm0 : StateMatch) (hs' : List (Host × StateMatch))
    (hok : JoinLocalMatches lp pages = Except.ok rs)
    (hmem : (e, (h0, sm0) :: hs') ∈ groupByExperiment (joinPages lp pages)) :
    alook rs e = if ((h0, sm0) :: hs').any (fun pr => pr.2.ShouldRestart)
                 then some sm0.RunArgs else none :=
  joinDecide_alook _ rs e h0 sm0 hs' (groupByExperiment_akeys_nodup _) hok hmem

/-- C2 (witness): the two end-to-end scenarios.  Hosts 10.0.0.1 and
10.0.0.2 both expect `proj-exp` Running; with observations 137 (live)
and 1 (crashed) the merged RestartSet maps `proj-exp` to the reference
configuration; with both observations 137 the RestartSet is empty. -/
theorem restartSet_iff_some_host_restarts_witness :
    JoinLocalMatches pageLive1 [pageCrash2] = Except.ok [("proj-exp", cfg0)] ∧
    alook [("proj-exp", cfg0)] "proj-exp" = some cfg0 ∧
    JoinLocalMatches pageLive1 [pageLive2] = Except.ok [] ∧
    alook ([] : ExperimentHostPageToRestart) "proj-exp" = none := by
  refine ⟨by decide, ?_, by decide, ?_⟩
  · have h := restartSet_iff_some_host_restarts pageLive1 [pageCrash2]
      [("proj-exp", cfg0)] "proj-exp" "10.0.0.1" smLive [("10.0.0.2", smCrash)]
      (by decide) (by decide)
    exact h.trans (by decide)
  · have h := restartSet_iff_some_host_restarts pageLive1 [pageLive2]
      [] "proj-exp" "10.0.0.1" smLive [("10.0.0.2", smLive)]
      (by decide) (by decide)
    exact h.trans (by decide)

/-! ## C1 -/

/-- C1 (amended): when two observing hosts report gob-unequal
configurations for the same JobKey, the merge-and-decide operation does
not exclude just that JobKey — it fails as a whole with the error
`run args are not equal`, so no RestartSet is produced and no other
JobKey's decision is returned. -/
theorem conflict_returns_error
    (lp : RetStatePage) (pages : List RetStatePage)
    (e : ProjectExperimentStr) (hs : List (Host × StateMatch))
    (p q : Host × StateMatch)
    (hmem : (e, hs) ∈ groupByExperiment (joinPages lp pages))
    (hp : p ∈ hs) (hq : q ∈ hs)
    (hneq : p.2.RunArgs.Equal q.2.RunArgs = false) :
    JoinLocalMatches lp pages = Except.error "run args are not equal" :=
  joinDecide_error_of_conflict _ e hs p q hmem hp hq hneq

/-- C1 (counterexample): hosts 10.0.0.1 and 10.0.0.2 disagree on
`pa-e1` (`NProcPerNode` 2 vs 4) and agree that the unrelated `pa-e2`
needs a restart.  The operation returns the error
`run args are not equal`: no RestartSet exists at all, so `pa-e2` is
not processed normally, refuting the per-JobKey conflict containment. -/
theorem conflict_scenario_cex :
    JoinLocalMatches pageConflictA [pageConflictB] =
      Except.error "run args are not equal" ∧
    (¬ ∃ rs, JoinLocalMatches pageConflictA [pageConflictB] = Except.ok rs ∧
       alook rs "pa-e2" = some cfgE2) := by
  refine ⟨by decide, ?_⟩
  rintro ⟨rs, hok, _⟩
  rw [show JoinLocalMatches pageConflictA [pageConflictB] =
      Except.error "run args are not equal" from by decide] at hok
  exact Except.noConfusion hok

/-- `cfg0` with a drifted port, for the C1 witness. -/
def cfgPortDrift : RunArgs := { cfg0 with Port := 1 }

/-- Page of host 10.0.0.1 for the C1 witness. -/
def pageW1 : RetStatePage :=
  [("10.0.0.1", [("pw", { Expected := Running, Actual := 0, RunArgs := cfg0 })])]

/-- Page of host 10.0.0.2 for the C1 witness, with the drifted port. -/
def pageW2 : RetStatePage :=
  [("10.0.0.2", [("pw", { Expected := Running, Actual := 0, RunArgs := cfgPortDrift })])]

/-- C1 (witness): the amended statement applied to a concrete pass where
the two hosts disagree on the `Port` field. -/
theorem conflict_returns_error_witness :
    JoinLocalMatches pageW1 [pageW2] = Except.error "run args are not equal" :=
  conflict_returns_error pageW1 [pageW2] "pw"
    [("10.0.0.1", { Expected := Running, Actual := 0, RunArgs := cfg0 }),
     ("10.0.0.2", { Expected := Running, Actual := 0, RunArgs := cfgPortDrift })]
    ("10.0.0.1", { Expected := Running, Actual := 0, RunArgs := cfg0 })
    ("10.0.0.2", { Expected := Running, Actual := 0, RunArgs := cfgPortDrift })
    (by decide) (by decide) (by decide) (by decide)

/-! ## C3 -/

/-- C3: the constructor leaves the `States` map nil, so the very first
`SetState` on a freshly constructed `LocalStateStore` is a nil-map
assignment — a runtime panic, not a successful in-memory upsert. -/
theorem setState_on_fresh_store_panics :
    (NewInnerStateManager restartDir).SetState "pa" "e1" Running cfg0 =
      GoResult.panicked ∧
    NewInnerStateManagerWithDefPath.States = none :=
  ⟨rfl, rfl⟩

/-! ## C7 -/

/-- The persisted state of job `(pa, e1)` with the derived Running
state, used by the C7 and C8 evaluations. -/
def pes0 : ProjectExperimentState :=
  { ProjectName := "pa", ExperimentName := "e1", State := Running, RunArgs := cfg0 }

/-- C7: writing a `PersistedJobState` into the default state directory
and then reloading does not round-trip.  `Write` places the file at
`/tmp/invoker-states/pa.e1.running` (via `filepath.Join`), but the load
opens `defaultRestartPath + name` with no separator, i.e.
`/tmp/invoker-statespa.e1.running`, so the reload fails — and even with
a matching path the insertion into the nil `States` map would panic. -/
theorem write_then_reload_fails :
    pes0.Write restartDir [] = [("/tmp/invoker-states/pa.e1.running", cfg0)] ∧
    NewInnerStateManagerWithDefPath.FillStates (pes0.Write restartDir []) =
      GoResult.err "failed to open state file pa.e1.running" :=
  ⟨by decide, by decide⟩

/-! ## C8 -/

/-- A state store over the default directory holding one in-memory
entry (`States` initialized, isolating the flush behaviour from the
constructor bug of C3). -/
def ismWithEntry : InnerStateManager :=
  { defaultRestartPath := restartDir, States := some [(pes0.NameAsType, pes0)] }

/-- C8: Flush is not idempotent.  With one in-memory entry and an empty
directory the first `UpdateStates` succeeds and writes
`/tmp/invoker-states/pa.e1.running`; the second lists that file but
removes `defaultRestartPath + name` with no separator
(`/tmp/invoker-statespa.e1.running`), which does not exist, so the
second flush fails instead of reproducing the same file set. -/
theorem second_flush_fails :
    ismWithEntry.UpdateStates [] =
      GoResult.ok [("/tmp/invoker-states/pa.e1.running", cfg0)] ∧
    ismWithEntry.UpdateStates [("/tmp/invoker-states/pa.e1.running", cfg0)] =
      GoResult.err "failed to remove file pa.e1.running" :=
  ⟨by decide, by decide⟩

/-! ## C6 -/

/-- C6: for every non-empty host list (the data model requires at least
one host), the resolver returns the index of the first list entry
contained in the node's address set together with the first entry as
master; when no entry matches it signals `ErrOmitHost` and the caller
exits with status 0; the single-entry `"localhost"` placeholder returns
the single-node sentinel `(localhost, 1)` regardless of the address
set; the master actually used is the explicit override when present and
non-empty, else the first entry; and with a single host the launch path
treats the rank as 0. -/
theorem rank_resolver_spec :
    (∀ (ips : List String) (h0 : String) (t : List String) (i : Nat),
       h0 :: t ≠ ["localhost"] →
       (h0 :: t).findIdx? (fun h => ips.contains h) = some i →
       masterAndRank ips (h0 :: t) = GoResult.ok (h0, (i : Int))) ∧
    (∀ (ips : List String) (h0 : String) (t : List String),
       h0 :: t ≠ ["localhost"] →
       (h0 :: t).findIdx? (fun h => ips.contains h) = none →
       masterAndRank ips (h0 :: t) = GoResult.err errOmitHostMsg ∧
       masterAndRankElseExit ips (h0 :: t) = ExitOr.exit 0) ∧
    (∀ ips : List String,
       masterAndRank ips ["localhost"] = GoResult.ok ("localhost", 1)) ∧
    (∀ (args : RunArgs) (h0 : String) (t : List String),
       args.Hosts = h0 :: t →
       masterHostElseFirstHost args =
         GoResult.ok (match args.MasterHost with
                      | some m => if m = "" then h0 else m
                      | none => h0)) ∧
    (∀ (ips : List String) (args : RunArgs) (h0 : String),
       args.Hosts = [h0] →
       runMasterAndRank ips args = ExitOr.cont ("localhost", 0)) := by
  refine ⟨?_, ?_, ?_, ?_, ?_⟩
  · intro ips h0 t i hne hfind
    have hloc : ¬((h0 :: t).length = 1 ∧ h0 = "localhost") := by
      rintro ⟨hlen, hl⟩
      apply hne
      cases t with
      | nil => rw [hl]
      | cons a b => simp at hlen
    have hpos : ¬((i : Int) = -1) := by
      intro hc
      have := Int.natCast_nonneg i
      omega
    simp only [masterAndRank, hfind]
    rw [if_neg hloc, if_neg hpos]
  · intro ips h0 t hne hfind
    have hloc : ¬((h0 :: t).length = 1 ∧ h0 = "localhost") := by
      rintro ⟨hlen, hl⟩
      apply hne
      cases t with
      | nil => rw [hl]
      | cons a b => simp at hlen
    constructor
    · simp only [masterAndRank, hfind]
      rw [if_neg hloc]
      simp
    · simp only [masterAndRankElseExit, masterAndRank, hfind]
      rw [if_neg hloc]
      simp
  · intro ips
    simp [masterAndRank]
  · intro args h0 t hH
    cases hm : args.MasterHost with
    | none => simp [masterHostElseFirstHost, hm, hH]
    | some m =>
      by_cases hms : m = "" <;> simp [masterHostElseFirstHost, hm, hms, hH]
  · intro ips args h0 hH
    cases hm : args.MasterHost with
    | none => simp [runMasterAndRank, masterHostElseFirstHost, hm, hH]
    | some m =>
      by_cases hms : m = "" <;>
        simp [runMasterAndRank, masterHostElseFirstHost, hm, hms, hH]

/-- C6 (witness): the resolver parts applied to concrete inputs — a
match at index 1, a no-match exiting 0, the localhost sentinel, the
no-override master, and the single-host rank-0 launch path. -/
theorem rank_resolver_spec_witness :
    masterAndRank ["10.0.0.2", "192.168.0.5"] ["10.0.0.1", "10.0.0.2", "10.0.0.3"] =
      GoResult.ok ("10.0.0.1", 1) ∧
    masterAndRankElseExit ["7.7.7.7"] ["10.0.0.1", "10.0.0.2"] = ExitOr.exit 0 ∧
    masterAndRank ["1.2.3.4"] ["localhost"] = GoResult.ok ("localhost", 1) ∧
    masterHostElseFirstHost cfg0 = GoResult.ok "10.0.0.1" ∧
    runMasterAndRank ["1.2.3.4"] { cfg0 with Hosts := ["10.0.0.9"] } =
      ExitOr.cont ("localhost", 0) := by
  refine ⟨?_, ?_, ?_, ?_, ?_⟩
  · exact rank_resolver_spec.1 ["10.0.0.2", "192.168.0.5"] "10.0.0.1"
      ["10.0.0.2", "10.0.0.3"] 1 (by decide) (by decide)
  · exact (rank_resolver_spec.2.1 ["7.7.7.7"] "10.0.0.1" ["10.0.0.2"]
      (by decide) (by decide)).2
  · exact rank_resolver_spec.2.2.1 ["1.2.3.4"]
  · exact rank_resolver_spec.2.2.2.1 cfg0 "10.0.0.1" ["10.0.0.2"] rfl
  · exact rank_resolver_spec.2.2.2.2 ["1.2.3.4"] { cfg0 with Hosts := ["10.0.0.9"] }
      "10.0.0.9" rfl

/-! ## C10 -/

/-- C10: when the runtime query finds a container by exact name and its
status line carries no `Exited (N)` marker (a running, or created but
never started, container), the observed exit code is 0; and an
observation with exit code 0 never satisfies the restart predicate,
whatever the expected state — a live container is observed as 0, not as
the liveness code 137. -/
theorem no_exited_marker_yields_zero
    (cs : List DockerContainer) (name : String) (c : DockerContainer)
    (hname : name ≠ "")
    (hfind : findByExactName cs name = GoResult.ok (some c))
    (hmark : findExitedMarker c.Status.toList = none) :
    containerStateAndExitCode cs name = CSECRes.found c.State 0 ∧
    (∀ (exp : State) (cfg : RunArgs),
       StateMatch.ShouldRestart { Expected := exp, Actual := 0, RunArgs := cfg } = false) := by
  constructor
  · simp only [containerStateAndExitCode]
    rw [if_neg hname, hfind]
    simp only [getExitCode, hmark]
  · intro exp cfg
    simp [StateMatch.ShouldRestart, badExitCodes, okExitCodes]

/-- A live container as the daemon reports it: status line without an
exit marker. -/
def liveContainer : DockerContainer :=
  { Names := ["/pa-e1"], State := "running", Status := "Up 3 hours" }

/-- C10 (witness): the theorem applied to a concrete live container. -/
theorem no_exited_marker_yields_zero_witness :
    containerStateAndExitCode [liveContainer] "pa-e1" = CSECRes.found "running" 0 ∧
    StateMatch.ShouldRestart { Expected := Running, Actual := 0, RunArgs := cfg0 } = false := by
  have h := no_exited_marker_yields_zero [liveContainer] "pa-e1" liveContainer
    (by decide) (by decide) (by decide)
  exact ⟨h.1, h.2 Running cfg0⟩

end Invoker
